import Mathlib

/-!
Verification of the stdio MCP frame transport embedded in
scripts/mcp_smoke_test.py and scripts/mcp_e2e_regression.py.

Byte strings are modelled as lists of natural numbers (one entry per byte,
values below 256 in all uses).  Decoded text is modelled as lists of Unicode
codepoints.  Fallible Python code is modelled with Except / explicit outcome
types.  All definitions are executable so concrete inputs evaluate by rfl
or decide.
-/

/-- startsWith p l holds (as a Bool) when the list p is an initial segment
of l; models Python bytes equality of a slice with a pattern. -/
def startsWith : List Nat → List Nat → Bool
  | [], _ => true
  | _ :: _, [] => false
  | a :: p, b :: l => a = b && startsWith p l

/-- bfind p l is the index of the first occurrence of the pattern p as a
contiguous sublist of l; models Python bytes.find (None for -1). -/
def bfind (p : List Nat) : List Nat → Option Nat
  | [] => if startsWith p [] then some 0 else none
  | b :: l => if startsWith p (b :: l) then some 0 else (bfind p l).map (· + 1)

/-- occursAt p l i says the pattern p appears in l starting at offset i. -/
def occursAt (p l : List Nat) (i : Nat) : Prop :=
  ∃ t, p ++ t = l.drop i

theorem startsWith_iff (p : List Nat) : ∀ l, startsWith p l = true ↔ ∃ t, p ++ t = l := by
  induction p with
  | nil =>
    intro l
    constructor
    · intro _; exact ⟨l, rfl⟩
    · intro _; cases l <;> rfl
  | cons a p ih =>
    intro l
    cases l with
    | nil =>
      simp only [startsWith]
      constructor
      · intro h; cases h
      · rintro ⟨t, ht⟩; cases ht
    | cons b l =>
      simp only [startsWith, Bool.and_eq_true, decide_eq_true_eq]
      constructor
      · rintro ⟨hab, hp⟩
        obtain ⟨t, ht⟩ := (ih l).mp hp
        exact ⟨t, by simp [hab, ht]⟩
      · rintro ⟨t, ht⟩
        injection ht with h1 h2
        exact ⟨h1, (ih l).mpr ⟨t, h2⟩⟩

theorem bfind_sound (p : List Nat) : ∀ (l : List Nat) (i : Nat),
    bfind p l = some i → occursAt p l i := by
  intro l
  induction l with
  | nil =>
    intro i h
    simp only [bfind] at h
    split at h
    · injection h with h0
      subst h0
      exact ⟨[], by simpa using (startsWith_iff p []).mp (by assumption)⟩
    · cases h
  | cons b l ih =>
    intro i h
    simp only [bfind] at h
    split at h
    · injection h with h0
      subst h0
      exact (startsWith_iff p (b :: l)).mp (by assumption)
    · cases hb : bfind p l with
      | none => rw [hb] at h; cases h
      | some j =>
        rw [hb] at h
        injection h with h0
        obtain ⟨t, ht⟩ := ih j hb
        exact ⟨t, by simpa [← h0] using ht⟩

theorem bfind_least (p : List Nat) : ∀ (l : List Nat) (i : Nat),
    bfind p l = some i → ∀ j, j < i → ¬ occursAt p l j := by
  intro l
  induction l with
  | nil =>
    intro i h j hj
    simp only [bfind] at h
    split at h
    · injection h with h0; omega
    · cases h
  | cons b l ih =>
    intro i h j hj
    simp only [bfind] at h
    split at h
    · injection h with h0; omega
    · cases hb : bfind p l with
      | none => rw [hb] at h; cases h
      | some k =>
        rw [hb] at h
        injection h with h0
        have h0' : k + 1 = i := h0
        subst h0'
        cases j with
        | zero =>
          intro hocc
          obtain ⟨t, ht⟩ := hocc
          have : startsWith p (b :: l) = true := (startsWith_iff p (b :: l)).mpr ⟨t, by simpa using ht⟩
          simp [this] at *
        | succ j' =>
          intro hocc
          obtain ⟨t, ht⟩ := hocc
          exact ih k hb j' (by omega) ⟨t, by simpa using ht⟩

theorem bfind_none (p : List Nat) : ∀ (l : List Nat),
    bfind p l = none → ∀ j, ¬ occursAt p l j := by
  intro l
  induction l with
  | nil =>
    intro h j hocc
    obtain ⟨t, ht⟩ := hocc
    simp only [List.drop_nil] at ht
    have : startsWith p [] = true := (startsWith_iff p []).mpr ⟨t, ht⟩
    simp only [bfind, this, if_true] at h
    cases h
  | cons b l ih =>
    intro h j hocc
    simp only [bfind] at h
    split at h
    · cases h
    · cases hb : bfind p l with
      | some k => rw [hb] at h; cases h
      | none =>
        cases j with
        | zero =>
          obtain ⟨t, ht⟩ := hocc
          have : startsWith p (b :: l) = true :=
            (startsWith_iff p (b :: l)).mpr ⟨t, by simpa using ht⟩
          simp [this] at *
        | succ j' =>
          obtain ⟨t, ht⟩ := hocc
          exact ih hb j' ⟨t, by simpa using ht⟩

theorem bfind_complete (p l : List Nat) (i : Nat) (h : occursAt p l i) :
    ∃ j, bfind p l = some j := by
  cases hb : bfind p l with
  | none => exact absurd h (bfind_none p l hb i)
  | some j => exact ⟨j, rfl⟩

theorem bfind_eq_some (p l : List Nat) (i : Nat) (hocc : occursAt p l i)
    (hleast : ∀ j, j < i → ¬ occursAt p l j) : bfind p l = some i := by
  obtain ⟨j, hj⟩ := bfind_complete p l i hocc
  have hs := bfind_sound p l j hj
  have : ¬ j < i := fun hlt => hleast j hlt hs
  have : ¬ i < j := fun hlt => bfind_least p l j hj i hlt hocc
  have : i = j := by omega
  simpa [this] using hj

theorem drop_cons_getElem? : ∀ (l : List Nat) (j : Nat) (x : Nat) (r : List Nat),
    l.drop j = x :: r → l[j]? = some x := by
  intro l
  induction l with
  | nil => intro j x r h; simp at h
  | cons a l ih =>
    intro j x r h
    cases j with
    | zero =>
      simp only [List.drop_zero] at h
      injection h with h1 _
      simp [h1]
    | succ j' =>
      simp only [List.drop_succ_cons] at h
      simpa using ih j' x r h

theorem occursAt_head (p l : List Nat) (i x : Nat) (xs : List Nat)
    (hp : p = x :: xs) (h : occursAt p l i) : l[i]? = some x := by
  obtain ⟨t, ht⟩ := h
  subst hp
  exact drop_cons_getElem? l i x (xs ++ t) (by simpa using ht.symm)

theorem occursAt_second (p l : List Nat) (i x y : Nat) (xs : List Nat)
    (hp : p = x :: y :: xs) (h : occursAt p l i) : l[i + 1]? = some y := by
  obtain ⟨t, ht⟩ := h
  subst hp
  have h1 : l.drop (i + 1) = y :: (xs ++ t) := by
    have : List.drop 1 (l.drop i) = List.drop 1 (x :: y :: (xs ++ t)) := by
      rw [← ht]; simp
    simpa [List.drop_drop, Nat.add_comm] using this
  exact drop_cons_getElem? l (i + 1) y (xs ++ t) h1

theorem occursAt_length (p l : List Nat) (i : Nat) (hp : p ≠ [])
    (h : occursAt p l i) : i + p.length ≤ l.length := by
  obtain ⟨t, ht⟩ := h
  have hlen : p.length + t.length = l.length - i := by
    have := congrArg List.length ht
    simpa using this
  have hple : 1 ≤ p.length := by
    cases p with
    | nil => exact absurd rfl hp
    | cons a b => simp
  by_cases hi : i ≤ l.length
  · omega
  · exfalso
    have : l.drop i = [] := List.drop_eq_nil_of_le (by omega)
    rw [this] at ht
    have := congrArg List.length ht
    simp at this
    omega

theorem occursAt_take (p l : List Nat) (s i : Nat)
    (h : occursAt p (l.take s) i) : occursAt p l i := by
  obtain ⟨t, ht⟩ := h
  have hdt : (l.take s).drop i = ((l.drop i).take (s - i)) := by
    rw [List.drop_take]
  have : p ++ t = (l.drop i).take (s - i) := by rw [ht, hdt]
  refine ⟨t ++ (l.drop i).drop (s - i), ?_⟩
  rw [← List.append_assoc, this, List.take_append_drop]

theorem append_getElem?_left : ∀ (a b : List Nat) (j : Nat), j < a.length →
    (a ++ b)[j]? = a[j]? := by
  intro a
  induction a with
  | nil => intro b j h; simp at h
  | cons x a ih =>
    intro b j h
    cases j with
    | zero => simp
    | succ j' =>
      simp only [List.cons_append]
      have := ih b j' (by simpa using Nat.lt_of_succ_lt_succ h)
      simpa using this

theorem getElem?_mem_of_some : ∀ (l : List Nat) (j x : Nat), l[j]? = some x → x ∈ l := by
  intro l
  induction l with
  | nil => intro j x h; simp at h
  | cons a l ih =>
    intro j x h
    cases j with
    | zero => simp at h; simp [h]
    | succ j' =>
      simp only [List.getElem?_cons_succ] at h
      exact List.mem_cons_of_mem a (ih j' x h)

/-- The little-endian decimal digits of n rendered as ASCII bytes, with an
explicit fuel argument to keep the recursion structural. -/
def decDigitsAux : Nat → Nat → List Nat
  | 0, _ => []
  | fuel + 1, n => if n = 0 then [] else (n % 10 + 48) :: decDigitsAux fuel (n / 10)

/-- The ASCII bytes of Python str(n) for a natural number n, e.g. 52 ↦ "52". -/
def decRepr (n : Nat) : List Nat :=
  if n = 0 then [48] else (decDigitsAux (n + 1) n).reverse

theorem decDigitsAux_mem : ∀ (fuel n b : Nat), b ∈ decDigitsAux fuel n →
    48 ≤ b ∧ b < 58 := by
  intro fuel
  induction fuel with
  | zero => intro n b h; simp [decDigitsAux] at h
  | succ fuel ih =>
    intro n b h
    simp only [decDigitsAux] at h
    split at h
    · simp at h
    · rcases List.mem_cons.mp h with h1 | h1
      · have := Nat.mod_lt n (show 0 < 10 by norm_num)
        omega
      · exact ih (n / 10) b h1

theorem decRepr_mem (n b : Nat) (h : b ∈ decRepr n) : 48 ≤ b ∧ b < 58 := by
  unfold decRepr at h
  split at h
  · simp at h; omega
  · exact decDigitsAux_mem (n + 1) n b (List.mem_reverse.mp h)

theorem decRepr_ne_nil (n : Nat) : decRepr n ≠ [] := by
  unfold decRepr
  split
  · simp
  · intro h
    have h2 : decDigitsAux (n + 1) n = [] := by simpa using congrArg List.reverse h
    simp only [decDigitsAux] at h2
    split at h2
    · omega
    · cases h2

theorem decDigitsAux_foldl : ∀ (fuel n a : Nat), n ≤ fuel →
    ((decDigitsAux fuel n).reverse).foldl (fun acc c => 10 * acc + (c - 48)) a
      = a * 10 ^ (decDigitsAux fuel n).length + n := by
  intro fuel
  induction fuel with
  | zero =>
    intro n a h
    have : n = 0 := by omega
    simp [decDigitsAux, this]
  | succ fuel ih =>
    intro n a h
    by_cases hn : n = 0
    · simp [decDigitsAux, hn]
    · have hdiv : n / 10 ≤ fuel := by
        have h1 : n / 10 < n := Nat.div_lt_self (by omega) (by norm_num)
        omega
      simp only [decDigitsAux, hn, if_false, List.reverse_cons, List.foldl_append,
        List.foldl_cons, List.foldl_nil, List.length_cons]
      rw [ih (n / 10) a hdiv]
      have hmod : n % 10 + 48 - 48 = n % 10 := by omega
      rw [hmod]
      have : 10 * (a * 10 ^ (decDigitsAux fuel (n / 10)).length + n / 10) + n % 10
          = a * 10 ^ ((decDigitsAux fuel (n / 10)).length + 1) + (10 * (n / 10) + n % 10) := by
        ring
      rw [this, Nat.div_add_mod]

theorem decRepr_foldl (n : Nat) :
    (decRepr n).foldl (fun acc c => 10 * acc + (c - 48)) 0 = n := by
  unfold decRepr
  split
  · simp; omega
  · have := decDigitsAux_foldl (n + 1) n 0 (by omega)
    simpa using this

/-- State of the incremental UTF-8 decoder: number of continuation bytes still
needed, the codepoint value accumulated so far, and the allowed range
(inclusive lower, exclusive upper) for the next continuation byte, which is
narrowed for the second byte of sequences led by E0, ED, F0, F4 as in the
Unicode well-formedness table. -/
structure Utf8Pend where
  need : Nat
  acc : Nat
  lo : Nat
  hi : Nat
deriving DecidableEq

/-- Classify a byte in initial position: either a directly emitted codepoint
(an ASCII byte, or U+FFFD for an invalid lead byte) or the pending state of a
multi-byte sequence. -/
def utf8Start (b : Nat) : Sum Nat Utf8Pend :=
  if b < 128 then .inl b
  else if b < 194 then .inl 65533
  else if b < 224 then .inr ⟨1, b - 192, 128, 192⟩
  else if b < 240 then .inr ⟨2, b - 224, if b = 224 then 160 else 128, if b = 237 then 160 else 192⟩
  else if b < 245 then .inr ⟨3, b - 240, if b = 240 then 144 else 128, if b = 244 then 144 else 192⟩
  else .inl 65533

/-- One pass of Python bytes.decode("utf-8", errors="replace") over the input,
with maximal-subpart replacement: an invalid or truncated sequence yields a
single U+FFFD and decoding resumes at the offending byte. -/
def utf8Loop : Option Utf8Pend → List Nat → List Nat
  | none, [] => []
  | some _, [] => [65533]
  | none, b :: rest =>
    (match utf8Start b with
     | .inl cp => cp :: utf8Loop none rest
     | .inr p => utf8Loop (some p) rest)
  | some p, b :: rest =>
    if p.lo ≤ b ∧ b < p.hi then
      (if p.need = 1 then (p.acc * 64 + (b - 128)) :: utf8Loop none rest
       else utf8Loop (some ⟨p.need - 1, p.acc * 64 + (b - 128), 128, 192⟩) rest)
    else
      65533 :: (match utf8Start b with
                | .inl cp => cp :: utf8Loop none rest
                | .inr q => utf8Loop (some q) rest)

/-- Python header.decode("utf-8", errors="replace"), bytes to codepoints. -/
def utf8DecodeReplace (l : List Nat) : List Nat := utf8Loop none l

theorem utf8DecodeReplace_ascii : ∀ (l : List Nat), (∀ b ∈ l, b < 128) →
    utf8DecodeReplace l = l := by
  intro l
  induction l with
  | nil => intro _; rfl
  | cons b rest ih =>
    intro h
    have hb : b < 128 := h b (List.mem_cons_self b rest)
    have hrest := ih (fun x hx => h x (List.mem_cons_of_mem b hx))
    unfold utf8DecodeReplace at *
    simp only [utf8Loop, utf8Start, hb, if_true]
    simpa using hrest

/-- The codepoints Python str.isspace accepts (the complete set: Unicode
White_Space plus the bidirectional-class B/S/WS control characters that
CPython additionally treats as space). -/
def isSpaceCp (c : Nat) : Bool :=
  (9 ≤ c && c ≤ 13) || (28 ≤ c && c ≤ 32) || c = 133 || c = 160 || c = 5760 ||
  (8192 ≤ c && c ≤ 8202) || c = 8232 || c = 8233 || c = 8239 || c = 8287 || c = 12288

/-- Python str.strip(): remove leading and trailing whitespace codepoints. -/
def pyStrip (l : List Nat) : List Nat :=
  ((l.dropWhile isSpaceCp).reverse.dropWhile isSpaceCp).reverse

/-- Python str.lower() restricted to ASCII case mapping; the only strings it
is compared against in this code are the ASCII header key "content-length". -/
def pyLower (l : List Nat) : List Nat :=
  l.map (fun c => if 65 ≤ c ∧ c ≤ 90 then c + 32 else c)

/-- The base codepoints of the Unicode decimal digit ranges (general
category Nd, Unicode 14.0 as shipped with CPython 3.11's unicodedata):
codepoint c is a decimal digit with value c - b exactly when b <= c < b + 10
for one of these bases.  These are the codepoints int() accepts. -/
def decDigitBases : List Nat :=
  [48, 1632, 1776, 1984, 2406, 2534, 2662, 2790, 2918, 3046, 3174, 3302,
   3430, 3558, 3664, 3792, 3872, 4160, 4240, 6112, 6160, 6470, 6608, 6784,
   6800, 6992, 7088, 7232, 7248, 42528, 43216, 43264, 43472, 43504, 43600,
   44016, 65296, 66720, 68912, 69734, 69872, 69942, 70096, 70384, 70736,
   70864, 71248, 71360, 71472, 71904, 72016, 72784, 73040, 73120, 92768,
   92864, 93008, 120782, 120792, 120802, 120812, 120822, 123200, 123632,
   125264, 130032]

/-- The decimal value of a codepoint, none when it is not a decimal digit. -/
def decDigitVal (c : Nat) : Option Nat :=
  (decDigitBases.find? (fun b => b ≤ c && c < b + 10)).map (fun b => c - b)

/-- Whether a codepoint is a Unicode decimal digit (has an int() value). -/
def isDecimalCp (c : Nat) : Bool :=
  (decDigitVal c).isSome

/-- The codepoint ranges CPython str.isdigit accepts: every codepoint with
Numeric_Type=Decimal or Numeric_Type=Digit (Unicode 14.0 as shipped with
CPython 3.11's unicodedata).  This is a strict superset of the decimal
digits: it also contains digit-classified codepoints with no decimal value,
such as the superscripts and the circled digits, which int() rejects. -/
def digitRanges : List (Nat × Nat) :=
  [(48, 57), (178, 179), (185, 185), (1632, 1641), (1776, 1785), (1984,
   1993), (2406, 2415), (2534, 2543), (2662, 2671), (2790, 2799), (2918,
   2927), (3046, 3055), (3174, 3183), (3302, 3311), (3430, 3439), (3558,
   3567), (3664, 3673), (3792, 3801), (3872, 3881), (4160, 4169), (4240,
   4249), (4969, 4977), (6112, 6121), (6160, 6169), (6470, 6479), (6608,
   6618), (6784, 6793), (6800, 6809), (6992, 7001), (7088, 7097), (7232,
   7241), (7248, 7257), (8304, 8304), (8308, 8313), (8320, 8329), (9312,
   9320), (9332, 9340), (9352, 9360), (9450, 9450), (9461, 9469), (9471,
   9471), (10102, 10110), (10112, 10120), (10122, 10130), (42528, 42537),
   (43216, 43225), (43264, 43273), (43472, 43481), (43504, 43513), (43600,
   43609), (44016, 44025), (65296, 65305), (66720, 66729), (68160, 68163),
   (68912, 68921), (69216, 69224), (69714, 69722), (69734, 69743), (69872,
   69881), (69942, 69951), (70096, 70105), (70384, 70393), (70736, 70745),
   (70864, 70873), (71248, 71257), (71360, 71369), (71472, 71481), (71904,
   71913), (72016, 72025), (72784, 72793), (73040, 73049), (73120, 73129),
   (92768, 92777), (92864, 92873), (93008, 93017), (120782, 120831),
   (123200, 123209), (123632, 123641), (125264, 125273), (127232, 127242),
   (130032, 130041)]

/-- Whether a codepoint satisfies Python str.isdigit. -/
def isDigitCp (c : Nat) : Bool :=
  digitRanges.any (fun r => r.1 ≤ c && c ≤ r.2)

/-- Python str.isdigit(): nonempty and every codepoint a digit. -/
def pyIsdigit (l : List Nat) : Bool :=
  !l.isEmpty && l.all isDigitCp

/-- Python int(v) on an already stripped, sign-free string as reaches it
here (the value has passed str.isdigit): succeeds exactly on nonempty
strings of decimal digits — of any script, e.g. int of the Arabic-Indic
five U+0665 is 5 — and raises ValueError on anything else, in particular on
digit-classified codepoints with no decimal value such as U+00B2. -/
def pyInt (v : List Nat) : Except Unit Nat :=
  if !v.isEmpty && v.all isDecimalCp then
    .ok (v.foldl (fun a c => 10 * a + (decDigitVal c).getD 0) 0)
  else .error ()

theorem decDigitVal_ascii (c : Nat) (h1 : 48 ≤ c) (h2 : c ≤ 57) :
    decDigitVal c = some (c - 48) := by
  unfold decDigitVal decDigitBases
  rw [List.find?_cons_of_pos]
  · rfl
  · simp only [Bool.and_eq_true, decide_eq_true_eq]
    omega

theorem isDigitCp_ascii (c : Nat) (h1 : 48 ≤ c) (h2 : c ≤ 57) : isDigitCp c = true := by
  unfold isDigitCp
  rw [List.any_eq_true]
  refine ⟨(48, 57), ?_, ?_⟩
  · unfold digitRanges
    exact List.mem_cons_self _ _
  · simp only [Bool.and_eq_true, decide_eq_true_eq]
    exact ⟨h1, h2⟩

theorem foldl_decDigitVal_ascii : ∀ (v : List Nat) (a : Nat),
    (∀ c ∈ v, 48 ≤ c ∧ c ≤ 57) →
    v.foldl (fun a c => 10 * a + (decDigitVal c).getD 0) a
      = v.foldl (fun a c => 10 * a + (c - 48)) a := by
  intro v
  induction v with
  | nil => intro a _; rfl
  | cons c v ih =>
    intro a hall
    have hc := hall c (List.mem_cons_self c v)
    simp only [List.foldl_cons]
    rw [decDigitVal_ascii c hc.1 hc.2]
    simp only [Option.getD_some]
    exact ih _ (fun x hx => hall x (List.mem_cons_of_mem c hx))

theorem pyInt_ascii (v : List Nat) (hne : v ≠ []) (hall : ∀ c ∈ v, 48 ≤ c ∧ c ≤ 57) :
    pyInt v = .ok (v.foldl (fun a c => 10 * a + (c - 48)) 0) := by
  unfold pyInt
  have h1 : v.isEmpty = false := by
    cases v with
    | nil => exact absurd rfl hne
    | cons a b => rfl
  have h2 : v.all isDecimalCp = true := by
    rw [List.all_eq_true]
    intro c hc
    have hc2 := hall c hc
    unfold isDecimalCp
    rw [decDigitVal_ascii c hc2.1 hc2.2]
    rfl
  rw [if_pos (by rw [h1, h2]; rfl)]
  rw [foldl_decDigitVal_ascii v 0 hall]

/-- Python text.replace(chr(13) ++ chr(10), chr(10)): collapse CRLF pairs,
scanning left to right. -/
def replaceCRLF : List Nat → List Nat
  | [] => []
  | [c] => [c]
  | c :: d :: rest =>
    if c = 13 ∧ d = 10 then 10 :: replaceCRLF rest
    else c :: replaceCRLF (d :: rest)

/-- Python text.split(chr(10)). -/
def splitLF : List Nat → List (List Nat)
  | [] => [[]]
  | c :: rest =>
    if c = 10 then [] :: splitLF rest
    else
      match splitLF rest with
      | [] => [[c]]
      | l :: ls => (c :: l) :: ls

/-- Python line.split(chr(58), 1) guarded by the chr(58)-in-line test: the
key before the first colon and the remainder after it, or none when the line
has no colon. -/
def splitFirstColon : List Nat → Option (List Nat × List Nat)
  | [] => none
  | c :: rest =>
    if c = 58 then some ([], rest)
    else
      match splitFirstColon rest with
      | none => none
      | some (k, v) => some (c :: k, v)

/-- The codepoints of the string "content-length". -/
def clKeyLower : List Nat := [99, 111, 110, 116, 101, 110, 116, 45, 108, 101, 110, 103, 116, 104]

/-- The per-line loop of MCPStdioClient._parse_content_length
(scripts/mcp_smoke_test.py lines 173-182): skip lines without a colon, and on
the first line whose stripped lowercased key is "content-length" return the
stripped value parsed by int() if it passes isdigit, None otherwise.  The
error value models the uncaught ValueError from int(). -/
def clLines : List (List Nat) → Except Unit (Option Nat)
  | [] => .ok none
  | line :: rest =>
    match splitFirstColon line with
    | none => clLines rest
    | some (k, v) =>
      if pyLower (pyStrip k) = clKeyLower then
        (if pyIsdigit (pyStrip v) then
          match pyInt (pyStrip v) with
          | .ok n => .ok (some n)
          | .error e => .error e
         else .ok none)
      else clLines rest

/-- MCPStdioClient._parse_content_length (scripts/mcp_smoke_test.py lines
170-182): decode the header bytes with errors="replace", normalize CRLF to
LF, split into lines and scan for the Content-Length field. -/
def parse_content_length (header : List Nat) : Except Unit (Option Nat) :=
  clLines (splitLF (replaceCRLF (utf8DecodeReplace header)))

/-- The bytes of the frame header terminator, CR LF CR LF. -/
def crlfcrlf : List Nat := [13, 10, 13, 10]

/-- The bytes of the lenient header terminator, LF LF. -/
def lflf : List Nat := [10, 10]

/-- MCPStdioClient._find_header_end (scripts/mcp_smoke_test.py lines 160-168):
index of the first CR LF CR LF if any occurs anywhere, otherwise index of the
first LF LF, otherwise none. -/
def find_header_end (buf : List Nat) : Option Nat :=
  match bfind crlfcrlf buf with
  | some i => some i
  | none =>
    match bfind lflf buf with
    | some i => some i
    | none => none

/-- How a _try_parse_one attempt ends: None with the buffer unchanged (need
more data), a parsed message together with the number of bytes consumed from
the front of the buffer, or an exception — protocol for SmokeTestError /
E2EError, value for the uncaught ValueError from int() on a non-decimal
digit-classified Content-Length value. -/
inductive PErr where
  | protocol
  | value
deriving DecidableEq

inductive POut (J : Type) where
  | needMore
  | ok (m : J) (consumed : Nat)
  | err (e : PErr)
deriving DecidableEq

/-- MCPStdioClient._try_parse_one (scripts/mcp_smoke_test.py lines 131-158).
The json.loads / UTF-8-decode / top-level-object check on the body is the
external json module, abstracted as loads : bytes → Option J with none for
any of its failure modes (each of which the source turns into
SmokeTestError).  Returns the outcome and the buffer after the attempt; note
the source deletes the consumed bytes before calling json.loads, so a body
that fails to parse still consumes its frame. -/
def try_parse_one {J : Type} (loads : List Nat → Option J) (buf : List Nat) :
    POut J × List Nat :=
  if buf = [] then (.needMore, buf)
  else
    match find_header_end buf with
    | none => (.needMore, buf)
    | some h =>
      let bodyStart := h + (if (buf.drop h).take 4 = crlfcrlf then 4 else 2)
      match parse_content_length (buf.take h) with
      | .error _ => (.err .value, buf)
      | .ok none => (.err .protocol, buf)
      | .ok (some n) =>
        if buf.length < bodyStart + n then (.needMore, buf)
        else
          match loads ((buf.drop bodyStart).take n) with
          | none => (.err .protocol, buf.drop (bodyStart + n))
          | some m => (.ok m (bodyStart + n), buf.drop (bodyStart + n))

/-- The bytes of the string "Content-Length: " as written by
MCPStdioClient.send. -/
def clHeaderBytes : List Nat :=
  [67, 111, 110, 116, 101, 110, 116, 45, 76, 101, 110, 103, 116, 104, 58, 32]

/-- The header part before the terminator for a body of n bytes. -/
def headerPre (n : Nat) : List Nat := clHeaderBytes ++ decRepr n

/-- MCPStdioClient.send framing (scripts/mcp_smoke_test.py lines 75-76):
the payload is the compact json.dumps of the message (abstracted as dumps),
prefixed by an ASCII Content-Length header and CR LF CR LF. -/
def encode {J : Type} (dumps : J → List Nat) (m : J) : List Nat :=
  headerPre (dumps m).length ++ crlfcrlf ++ dumps m

example : try_parse_one (fun b => some b) (encode (fun x => x) [123, 125]) =
    (.ok [123, 125] 23, []) := by decide

example : try_parse_one (fun b => some b)
    (encode (fun x => x) [123, 125] ++ [99]) = (.ok [123, 125] 23, [99]) := by decide

example : find_header_end [10, 10, 13, 10, 13, 10] = some 2 := by decide

example : try_parse_one (fun _ => (none : Option Unit))
    [67, 111, 110, 116, 101, 110, 116, 45, 76, 101, 110, 103, 116, 104, 58, 32,
     194, 178, 13, 10, 13, 10] =
    (.err .value,
     [67, 111, 110, 116, 101, 110, 116, 45, 76, 101, 110, 103, 116, 104, 58, 32,
      194, 178, 13, 10, 13, 10]) := by decide

example : try_parse_one (fun _ => (none : Option Unit)) [88, 13, 10, 13, 10] =
    (.err .protocol, [88, 13, 10, 13, 10]) := by decide

example : try_parse_one (fun b => some b)
    [67, 111, 110, 116, 101, 110, 116, 45, 76, 101, 110, 103, 116, 104, 58, 32,
     49, 48, 13, 10, 13, 10, 97, 98, 99] =
    (.needMore,
     [67, 111, 110, 116, 101, 110, 116, 45, 76, 101, 110, 103, 116, 104, 58, 32,
      49, 48, 13, 10, 13, 10, 97, 98, 99]) := by decide

theorem headerPre_mem (n b : Nat) (h : b ∈ headerPre n) : 31 < b ∧ b < 128 := by
  unfold headerPre at h
  rcases List.mem_append.mp h with h1 | h1
  · have : b ∈ clHeaderBytes → 31 < b ∧ b < 128 := by
      intro hb
      unfold clHeaderBytes at hb
      fin_cases hb <;> omega
    exact this h1
  · have := decRepr_mem n b h1
    omega

theorem replaceCRLF_id (l : List Nat) (h : ∀ c ∈ l, c ≠ 13) : replaceCRLF l = l := by
  induction l with
  | nil => rfl
  | cons c rest ih =>
    have hc : c ≠ 13 := h c (List.mem_cons_self c rest)
    have ihr := ih (fun x hx => h x (List.mem_cons_of_mem c hx))
    cases rest with
    | nil => rfl
    | cons d r =>
      simp only [replaceCRLF]
      rw [if_neg (by rintro ⟨h1, _⟩; exact hc h1)]
      rw [ihr]

theorem splitLF_cons_ne (c : Nat) (rest : List Nat) (hc : c ≠ 10) :
    splitLF (c :: rest) =
      match splitLF rest with
      | [] => [[c]]
      | l :: ls => (c :: l) :: ls := by
  simp only [splitLF]
  rw [if_neg hc]

theorem splitLF_no_lf (l : List Nat) (h : ∀ c ∈ l, c ≠ 10) : splitLF l = [l] := by
  induction l with
  | nil => rfl
  | cons c rest ih =>
    have hc : c ≠ 10 := h c (List.mem_cons_self c rest)
    have ihr := ih (fun x hx => h x (List.mem_cons_of_mem c hx))
    rw [splitLF_cons_ne c rest hc, ihr]

theorem splitFirstColon_append (a rest : List Nat) (h : ∀ c ∈ a, c ≠ 58) :
    splitFirstColon (a ++ 58 :: rest) = some (a, rest) := by
  induction a with
  | nil => simp [splitFirstColon]
  | cons c a ih =>
    have hc : c ≠ 58 := h c (List.mem_cons_self c a)
    have iha := ih (fun x hx => h x (List.mem_cons_of_mem c hx))
    simp only [List.cons_append, splitFirstColon, List.append_eq]
    rw [if_neg hc, iha]

theorem dropWhile_of_none (p : Nat → Bool) (l : List Nat)
    (h : ∀ c ∈ l, p c = false) : l.dropWhile p = l := by
  cases l with
  | nil => rfl
  | cons c rest =>
    rw [List.dropWhile_cons_of_neg]
    simp [h c (List.mem_cons_self c rest)]

theorem pyStrip_space_then (l : List Nat) (h : ∀ c ∈ l, isSpaceCp c = false) :
    pyStrip (32 :: l) = l := by
  unfold pyStrip
  have h32 : isSpaceCp 32 = true := by decide
  rw [List.dropWhile_cons_of_pos (by simp [h32])]
  rw [dropWhile_of_none isSpaceCp l h]
  rw [dropWhile_of_none isSpaceCp l.reverse (fun c hc => h c (List.mem_reverse.mp hc))]
  exact List.reverse_reverse l

/-- The bytes of the string "Content-Length" (the header key, before the
colon). -/
def clNameBytes : List Nat := [67, 111, 110, 116, 101, 110, 116, 45, 76, 101, 110, 103, 116, 104]

theorem parse_content_length_headerPre (n : Nat) :
    parse_content_length (headerPre n) = .ok (some n) := by
  have hmem := headerPre_mem n
  unfold parse_content_length
  rw [utf8DecodeReplace_ascii (headerPre n) (fun b hb => (hmem b hb).2)]
  rw [replaceCRLF_id (headerPre n) (fun c hc h13 => by have := hmem c hc; omega)]
  rw [splitLF_no_lf (headerPre n) (fun c hc h10 => by have := hmem c hc; omega)]
  have hsplit : splitFirstColon (headerPre n) = some (clNameBytes, 32 :: decRepr n) := by
    have : headerPre n = clNameBytes ++ 58 :: (32 :: decRepr n) := by
      simp [headerPre, clHeaderBytes, clNameBytes]
    rw [this]
    exact splitFirstColon_append clNameBytes (32 :: decRepr n) (by decide)
  simp only [clLines, hsplit]
  have hkey : pyLower (pyStrip clNameBytes) = clKeyLower := by decide
  rw [if_pos hkey]
  have hstrip : pyStrip (32 :: decRepr n) = decRepr n := by
    apply pyStrip_space_then
    intro c hc
    have := decRepr_mem n c hc
    simp [isSpaceCp]
    omega
  rw [hstrip]
  have hdig : pyIsdigit (decRepr n) = true := by
    unfold pyIsdigit
    have h1 : (decRepr n).isEmpty = false := by
      cases hd : decRepr n with
      | nil => exact absurd hd (decRepr_ne_nil n)
      | cons a b => rfl
    rw [h1]
    simp only [Bool.not_false, Bool.true_and]
    rw [List.all_eq_true]
    intro c hc
    have := decRepr_mem n c hc
    exact isDigitCp_ascii c (by omega) (by omega)
  rw [if_pos hdig]
  have hint : pyInt (decRepr n) = .ok n := by
    rw [pyInt_ascii (decRepr n) (decRepr_ne_nil n)
      (fun c hc => by have := decRepr_mem n c hc; omega)]
    rw [decRepr_foldl n]
  rw [hint]

theorem frame_drop_header (n : Nat) (tail : List Nat) :
    (headerPre n ++ crlfcrlf ++ tail).drop (headerPre n).length = crlfcrlf ++ tail := by
  rw [List.append_assoc]
  exact List.drop_left (headerPre n) (crlfcrlf ++ tail)

theorem frame_take_header (n : Nat) (tail : List Nat) :
    (headerPre n ++ crlfcrlf ++ tail).take (headerPre n).length = headerPre n := by
  rw [List.append_assoc]
  exact List.take_left (headerPre n) (crlfcrlf ++ tail)

theorem frame_no_crlfcrlf_before (n : Nat) (tail : List Nat) (j : Nat)
    (hj : j < (headerPre n).length) :
    ¬ occursAt crlfcrlf (headerPre n ++ crlfcrlf ++ tail) j := by
  intro hocc
  have h13 : (headerPre n ++ crlfcrlf ++ tail)[j]? = some 13 :=
    occursAt_head crlfcrlf _ j 13 [10, 13, 10] rfl hocc
  rw [List.append_assoc, append_getElem?_left (headerPre n) (crlfcrlf ++ tail) j hj] at h13
  have := headerPre_mem n 13 (getElem?_mem_of_some (headerPre n) j 13 h13)
  omega

theorem frame_crlfcrlf_at (n : Nat) (tail : List Nat) :
    occursAt crlfcrlf (headerPre n ++ crlfcrlf ++ tail) (headerPre n).length :=
  ⟨tail, by rw [frame_drop_header]⟩

theorem frame_bfind_crlfcrlf (n : Nat) (tail : List Nat) :
    bfind crlfcrlf (headerPre n ++ crlfcrlf ++ tail) = some (headerPre n).length :=
  bfind_eq_some crlfcrlf _ _ (frame_crlfcrlf_at n tail)
    (fun j hj => frame_no_crlfcrlf_before n tail j hj)

theorem frame_find_header_end (n : Nat) (tail : List Nat) :
    find_header_end (headerPre n ++ crlfcrlf ++ tail) = some (headerPre n).length := by
  unfold find_header_end
  rw [frame_bfind_crlfcrlf]

theorem frame_no_lflf_early (n : Nat) (tail : List Nat) (j : Nat)
    (hj : j ≤ (headerPre n).length + 1) :
    ¬ occursAt lflf (headerPre n ++ crlfcrlf ++ tail) j := by
  intro hocc
  set B := headerPre n ++ crlfcrlf ++ tail with hB
  set h := (headerPre n).length with hh
  have hdropB : B.drop h = 13 :: 10 :: 13 :: 10 :: tail := by
    rw [hB, frame_drop_header]; rfl
  rcases Nat.lt_or_ge j h with hlt | hge
  · have h10 : B[j]? = some 10 := occursAt_head lflf B j 10 [10] rfl hocc
    rw [hB, List.append_assoc, append_getElem?_left (headerPre n) (crlfcrlf ++ tail) j hlt] at h10
    have := headerPre_mem n 10 (getElem?_mem_of_some (headerPre n) j 10 h10)
    omega
  · have hcase : j = h ∨ j = h + 1 := by omega
    rcases hcase with hj1 | hj1
    · have h10 : B[j]? = some 10 := occursAt_head lflf B j 10 [10] rfl hocc
      have h13 : B[h]? = some 13 := drop_cons_getElem? B h 13 (10 :: 13 :: 10 :: tail) hdropB
      rw [hj1] at h10
      have hcontra := h13.symm.trans h10
      simp at hcontra
    · have h10 : B[j + 1]? = some 10 := occursAt_second lflf B j 10 10 [] rfl hocc
      have hdrop2 : B.drop (h + 2) = 13 :: 10 :: tail := by
        have h2 : B.drop (h + 2) = (B.drop h).drop 2 := by
          rw [List.drop_drop]
        rw [h2, hdropB]
        rfl
      have h13 : B[h + 2]? = some 13 := drop_cons_getElem? B (h + 2) 13 (10 :: tail) hdrop2
      rw [hj1] at h10
      have hcontra := h13.symm.trans h10
      simp at hcontra

theorem frame_ne_nil (n : Nat) (tail : List Nat) :
    headerPre n ++ crlfcrlf ++ tail ≠ [] := by
  simp [headerPre, clHeaderBytes]

theorem frame_length (n : Nat) (tail : List Nat) :
    (headerPre n ++ crlfcrlf ++ tail).length = (headerPre n).length + 4 + tail.length := by
  simp [crlfcrlf]
  omega

theorem tpo_wf_incomplete {J : Type} (loads : List Nat → Option J) (n : Nat)
    (tail : List Nat) (hlt : tail.length < n) :
    try_parse_one loads (headerPre n ++ crlfcrlf ++ tail) =
      (.needMore, headerPre n ++ crlfcrlf ++ tail) := by
  have hterm : ((headerPre n ++ crlfcrlf ++ tail).drop (headerPre n).length).take 4 = crlfcrlf := by
    rw [frame_drop_header]; rfl
  unfold try_parse_one
  rw [if_neg (frame_ne_nil n tail)]
  split
  · next heq => rw [frame_find_header_end n tail] at heq
  · next hh heq =>
    rw [frame_find_header_end n tail] at heq
    injection heq with heq'
    subst heq'
    simp only [hterm, frame_take_header, parse_content_length_headerPre n, if_true]
    rw [if_pos (by rw [frame_length]; omega)]

theorem tpo_wf_complete {J : Type} (loads : List Nat → Option J) (n : Nat)
    (tail : List Nat) (hge : n ≤ tail.length) :
    try_parse_one loads (headerPre n ++ crlfcrlf ++ tail) =
      (match loads (tail.take n) with
       | none => (POut.err PErr.protocol, tail.drop n)
       | some m => (POut.ok m ((headerPre n).length + 4 + n), tail.drop n)) := by
  have hterm : ((headerPre n ++ crlfcrlf ++ tail).drop (headerPre n).length).take 4 = crlfcrlf := by
    rw [frame_drop_header]; rfl
  have hdropBody : (headerPre n ++ crlfcrlf ++ tail).drop ((headerPre n).length + 4) = tail := by
    have h0 := List.drop_left (headerPre n ++ crlfcrlf) tail
    have hlen : (headerPre n ++ crlfcrlf).length = (headerPre n).length + 4 := by
      simp [crlfcrlf]
    rw [hlen] at h0
    exact h0
  have hdropRest : (headerPre n ++ crlfcrlf ++ tail).drop ((headerPre n).length + 4 + n)
      = tail.drop n := by
    have h2 : ((headerPre n ++ crlfcrlf ++ tail).drop ((headerPre n).length + 4)).drop n
        = (headerPre n ++ crlfcrlf ++ tail).drop ((headerPre n).length + 4 + n) := by
      rw [List.drop_drop]
    rw [hdropBody] at h2
    exact h2.symm
  unfold try_parse_one
  rw [if_neg (frame_ne_nil n tail)]
  split
  · next heq =>
    rw [frame_find_header_end n tail] at heq
    simp at heq
  · next hh heq =>
    rw [frame_find_header_end n tail] at heq
    injection heq with heq'
    subst heq'
    simp only [hterm, frame_take_header, parse_content_length_headerPre n, if_true]
    rw [if_neg (by rw [frame_length]; omega)]
    rw [hdropBody, hdropRest]

/-- _try_parse_one on a full encoded frame followed by arbitrary further
bytes: yields the message and consumes exactly the frame. -/
theorem tpo_encode_append {J : Type} (dumps : J → List Nat) (loads : List Nat → Option J)
    (m : J) (rest : List Nat) (hm : loads (dumps m) = some m) :
    try_parse_one loads (encode dumps m ++ rest) = (.ok m (encode dumps m).length, rest) := by
  have hassoc : encode dumps m ++ rest
      = headerPre (dumps m).length ++ crlfcrlf ++ (dumps m ++ rest) := by
    simp [encode, List.append_assoc]
  rw [hassoc]
  rw [tpo_wf_complete loads (dumps m).length (dumps m ++ rest) (by simp)]
  have htake : (dumps m ++ rest).take (dumps m).length = dumps m := List.take_left _ _
  have hdrop : (dumps m ++ rest).drop (dumps m).length = rest := List.drop_left _ _
  have hlen : (encode dumps m).length
      = (headerPre (dumps m).length).length + 4 + (dumps m).length := by
    simp [encode, crlfcrlf]
    omega
  rw [htake, hdrop, hm, hlen]

/-- _try_parse_one on any strict initial segment of an encoded frame: need
more data, nothing consumed. -/
theorem tpo_take_frame {J : Type} (dumps : J → List Nat) (loads : List Nat → Option J)
    (m : J) (s : Nat) (hs : s < (encode dumps m).length) :
    try_parse_one loads ((encode dumps m).take s) =
      (.needMore, (encode dumps m).take s) := by
  set n := (dumps m).length with hn
  have hflen : (encode dumps m).length = (headerPre n).length + 4 + n := by
    simp [encode, crlfcrlf, hn]
    omega
  rcases Nat.lt_or_ge s ((headerPre n).length + 4) with hlt | hge
  · set p := (encode dumps m).take s with hp
    have henc : encode dumps m = headerPre n ++ crlfcrlf ++ dumps m := rfl
    have hplen : p.length = s := by
      rw [hp, List.length_take]
      omega
    have hfhe : find_header_end p = none := by
      unfold find_header_end
      cases hc : bfind crlfcrlf p with
      | some j =>
        exfalso
        have hocc := bfind_sound crlfcrlf p j hc
        have hlen4 := occursAt_length crlfcrlf p j (by decide) hocc
        have hoccB : occursAt crlfcrlf (encode dumps m) j := occursAt_take crlfcrlf _ s j hocc
        rw [henc] at hoccB
        refine frame_no_crlfcrlf_before n (dumps m) j ?_ hoccB
        rw [hplen] at hlen4
        simp [crlfcrlf] at hlen4
        omega
      | none =>
        cases hl : bfind lflf p with
        | some j =>
          exfalso
          have hocc := bfind_sound lflf p j hl
          have hlen2 := occursAt_length lflf p j (by decide) hocc
          have hoccB : occursAt lflf (encode dumps m) j := occursAt_take lflf _ s j hocc
          rw [henc] at hoccB
          refine frame_no_lflf_early n (dumps m) j ?_ hoccB
          rw [hplen] at hlen2
          simp [lflf] at hlen2
          omega
        | none => rfl
    by_cases hpe : p = []
    · unfold try_parse_one
      rw [if_pos hpe]
    · unfold try_parse_one
      rw [if_neg hpe, hfhe]
  · have henc4 : encode dumps m = (headerPre n ++ crlfcrlf) ++ dumps m := by
      simp [encode, hn, List.append_assoc]
    have hlen4 : (headerPre n ++ crlfcrlf).length = (headerPre n).length + 4 := by
      simp [crlfcrlf]
    have htake : (encode dumps m).take s
        = headerPre n ++ crlfcrlf ++ (dumps m).take (s - ((headerPre n).length + 4)) := by
      rw [henc4, List.take_append_eq_append_take, hlen4]
      rw [List.take_of_length_le (by rw [hlen4]; omega)]
    rw [htake]
    apply tpo_wf_incomplete
    rw [List.length_take]
    rw [hflen] at hs
    omega

/-- How a recv_message call ends: a decoded message, a deadline expiry
(SmokeTestError on timeout), end of stream on the child's stdout
(SmokeTestError on chunk == b""), or a propagated parse error. -/
inductive RecvOut (J : Type) where
  | ok (m : J)
  | timeout
  | closed
  | err (e : PErr)
deriving DecidableEq

/-- MCPStdioClient.recv_message (scripts/mcp_smoke_test.py lines 85-114).
The I/O side is modelled by a stream: the list of successive os.read results
the selector would deliver, where an empty chunk models EOF on the child's
stdout and exhausting the list models the deadline expiring with no further
readability.  Returns the outcome, the remaining buffer, and the part of the
stream not yet read — so a result whose stream component equals the input
stream was produced without any I/O wait. -/
def recv_message {J : Type} (loads : List Nat → Option J) :
    List (List Nat) → List Nat → RecvOut J × List Nat × List (List Nat)
  | [], buf =>
    match try_parse_one loads buf with
    | (.ok m _, buf2) => (.ok m, buf2, [])
    | (.err e, buf2) => (.err e, buf2, [])
    | (.needMore, _) => (.timeout, buf, [])
  | c :: rest, buf =>
    match try_parse_one loads buf with
    | (.ok m _, buf2) => (.ok m, buf2, c :: rest)
    | (.err e, buf2) => (.err e, buf2, c :: rest)
    | (.needMore, _) =>
      if c = [] then (.closed, buf, rest)
      else recv_message loads rest (buf ++ c)

/-- MCPStdioClient.recv_response_for_id (scripts/mcp_smoke_test.py lines
116-129), modelled over the sequence of messages recv_message yields before
the deadline: skip every message whose id field does not equal the awaited
request id, return the first match, none when the deadline expires first
(SmokeTestError).  idOf gives the message's id field (none when absent); a
message with no id can never equal the awaited id, as in the source where
dict.get returns None. -/
def recv_response_for_id {J V : Type} [DecidableEq V] (idOf : J → Option V) (rid : V) :
    List J → Option J
  | [] => none
  | m :: ms => if idOf m = some rid then some m else recv_response_for_id idOf rid ms

/-- The externally visible actions of _terminate_process, in order. -/
inductive PAct where
  | closeStdin
  | graceSleep
  | terminateSig
  | waitChild
  | killSig
deriving DecidableEq

/-- The child process as _terminate_process observes it: polls i is the
result of the i-th proc.poll() call (true when the child has exited), and
waitOk tells whether proc.wait(timeout=2.0) after the terminate signal
returns within its timeout. -/
structure Child where
  polls : Nat → Bool
  waitOk : Bool

/-- The grace-period loop of _terminate_process (scripts/mcp_smoke_test.py
lines 265-286): poll until the deadline, sleeping 0.05s between polls — time
is discretized into the number of loop iterations the grace period allows —
then escalate: terminate, bounded wait, and kill only if the wait fails. -/
def graceLoop (c : Child) : Nat → Nat → List PAct
  | 0, _ => [.terminateSig, .waitChild] ++ (if c.waitOk then [] else [.killSig])
  | fuel + 1, i =>
    if c.polls i then []
    else .graceSleep :: graceLoop c fuel (i + 1)

/-- _terminate_process (scripts/mcp_smoke_test.py lines 255-286): the list of
actions performed on the child.  Immediate return when the initial poll says
the child already exited; otherwise stdin is closed and the grace loop runs
with gracePolls iterations available. -/
def terminate_process (c : Child) (gracePolls : Nat) : List PAct :=
  if c.polls 0 then [] else .closeStdin :: graceLoop c gracePolls 1

/-- MCPStdioClient._find_header_end of scripts/mcp_e2e_regression.py (lines
179-187), embedded separately from the smoke-test copy so the two decoders
can be compared. -/
def e2e_find_header_end (buf : List Nat) : Option Nat :=
  match bfind crlfcrlf buf with
  | some i => some i
  | none =>
    match bfind lflf buf with
    | some i => some i
    | none => none

/-- MCPStdioClient._parse_content_length of scripts/mcp_e2e_regression.py
(lines 189-201). -/
def e2e_parse_content_length (header : List Nat) : Except Unit (Option Nat) :=
  clLines (splitLF (replaceCRLF (utf8DecodeReplace header)))

/-- MCPStdioClient._try_parse_one of scripts/mcp_e2e_regression.py (lines
150-177); E2EError takes the place of SmokeTestError. -/
def e2e_try_parse_one {J : Type} (loads : List Nat → Option J) (buf : List Nat) :
    POut J × List Nat :=
  if buf = [] then (.needMore, buf)
  else
    match e2e_find_header_end buf with
    | none => (.needMore, buf)
    | some h =>
      let bodyStart := h + (if (buf.drop h).take 4 = crlfcrlf then 4 else 2)
      match e2e_parse_content_length (buf.take h) with
      | .error _ => (.err .value, buf)
      | .ok none => (.err .protocol, buf)
      | .ok (some n) =>
        if buf.length < bodyStart + n then (.needMore, buf)
        else
          match loads ((buf.drop bodyStart).take n) with
          | none => (.err .protocol, buf.drop (bodyStart + n))
          | some m => (.ok m (bodyStart + n), buf.drop (bodyStart + n))

/-- _try_parse_one on a buffer that is a proper initial segment of an
encoded frame: need more data, nothing consumed. -/
theorem tpo_proper_lead {J : Type} (dumps : J → List Nat) (loads : List Nat → Option J)
    (m : J) (p t : List Nat) (ht : t ≠ []) (heq : p ++ t = encode dumps m) :
    try_parse_one loads p = (.needMore, p) := by
  have hp : p = (encode dumps m).take p.length := by
    rw [← heq, List.take_left]
  have hlt : p.length < (encode dumps m).length := by
    have hl := congrArg List.length heq
    rw [List.length_append] at hl
    have h1 : 1 ≤ t.length := by
      cases t with
      | nil => exact absurd rfl ht
      | cons a b => simp
    omega
  rw [hp]
  exact tpo_take_frame dumps loads m p.length hlt

/-- Claim C1: for every message m that the json module round-trips
(loads (dumps m) = some m, which holds for every JSON-serializable dict),
a decode attempt on a buffer holding exactly the frame encoded by send
succeeds and returns m together with the total byte length of the frame,
leaving an empty buffer. -/
theorem claim_C1 {J : Type} (dumps : J → List Nat) (loads : List Nat → Option J)
    (m : J) (hm : loads (dumps m) = some m) :
    try_parse_one loads (encode dumps m) = (.ok m (encode dumps m).length, []) := by
  have h := tpo_encode_append dumps loads m [] hm
  simpa using h

/-- Witness for C1: the identity codec on the two bytes of an empty JSON
object body; the frame is 23 bytes long. -/
theorem claim_C1_witness :
    ((fun b : List Nat => some b) ((fun x : List Nat => x) [123, 125]) = some [123, 125]) ∧
    (encode (fun x : List Nat => x) [123, 125]).length = 23 ∧
    try_parse_one (fun b : List Nat => some b) (encode (fun x : List Nat => x) [123, 125])
      = (.ok [123, 125] (encode (fun x : List Nat => x) [123, 125]).length, []) :=
  ⟨rfl, by decide, claim_C1 (fun x : List Nat => x) (fun b : List Nat => some b) [123, 125] rfl⟩

/-- Claim C2 (amended): when the buffer contains both an LF LF and a
CR LF CR LF occurrence, the recognized boundary is the first CR LF CR LF
occurrence, regardless of whether an LF LF occurs at a smaller offset. -/
theorem claim_C2_amended (buf : List Nat) (i j : Nat)
    (_h1 : occursAt lflf buf i) (h2 : occursAt crlfcrlf buf j) :
    ∃ k, find_header_end buf = some k ∧ occursAt crlfcrlf buf k ∧
      ∀ j2, j2 < k → ¬ occursAt crlfcrlf buf j2 := by
  obtain ⟨k, hk⟩ := bfind_complete crlfcrlf buf j h2
  refine ⟨k, ?_, bfind_sound crlfcrlf buf k hk, bfind_least crlfcrlf buf k hk⟩
  unfold find_header_end
  rw [hk]

/-- Witness for the amended C2 at the buffer LF LF CR LF CR LF. -/
theorem claim_C2_amended_witness :
    ∃ k, find_header_end [10, 10, 13, 10, 13, 10] = some k ∧
      occursAt crlfcrlf [10, 10, 13, 10, 13, 10] k ∧
      ∀ j2, j2 < k → ¬ occursAt crlfcrlf [10, 10, 13, 10, 13, 10] j2 :=
  claim_C2_amended [10, 10, 13, 10, 13, 10] 0 2 ⟨[13, 10, 13, 10], rfl⟩ ⟨[], rfl⟩

/-- Claim C2 as stated is false: in the buffer LF LF CR LF CR LF the LF LF
terminator occurs first, at offset 0, yet the decoder recognizes the
boundary at offset 2, the CR LF CR LF occurrence — not at the smaller
offset. -/
theorem claim_C2_counterexample :
    occursAt lflf [10, 10, 13, 10, 13, 10] 0 ∧
    occursAt crlfcrlf [10, 10, 13, 10, 13, 10] 2 ∧
    find_header_end [10, 10, 13, 10, 13, 10] = some 2 ∧
    find_header_end [10, 10, 13, 10, 13, 10] ≠ some (min 0 2) :=
  ⟨⟨[13, 10, 13, 10], rfl⟩, ⟨[], rfl⟩, by decide, by decide⟩

/-- Claim C3: chunk-boundary independence.  Splitting the bytes of
encode(m) into any ordered sequence of non-empty chunks and attempting a
decode after each append yields m exactly once: every attempt on a buffer
holding only the first k chunks (k < total) yields no message and leaves the
buffer intact, and the attempt once the final chunk has arrived yields m,
consuming the whole frame. -/
theorem claim_C3 {J : Type} (dumps : J → List Nat) (loads : List Nat → Option J)
    (m : J) (hm : loads (dumps m) = some m)
    (cs : List (List Nat)) (hne : ∀ c ∈ cs, c ≠ [])
    (hj : cs.flatten = encode dumps m) :
    (∀ k, k < cs.length →
      try_parse_one loads ((cs.take k).flatten) = (.needMore, (cs.take k).flatten)) ∧
    try_parse_one loads (cs.flatten) = (.ok m (encode dumps m).length, []) := by
  constructor
  · intro k hk
    have hsplit : (cs.take k).flatten ++ (cs.drop k).flatten = encode dumps m := by
      rw [← List.flatten_append, List.take_append_drop, hj]
    have hdne : (cs.drop k).flatten ≠ [] := by
      cases hd : cs.drop k with
      | nil =>
        exfalso
        have := congrArg List.length hd
        simp at this
        omega
      | cons c rest =>
        have hcne : c ≠ [] := by
          apply hne
          apply List.mem_of_mem_drop (n := k)
          rw [hd]
          exact List.mem_cons_self c rest
        cases c with
        | nil => exact absurd rfl hcne
        | cons x xs => simp
    exact tpo_proper_lead dumps loads m _ _ hdne hsplit
  · rw [hj]
    have h := tpo_encode_append dumps loads m [] hm
    simpa using h

/-- Witness for C3: the 23-byte frame of the empty-object body split into a
17-byte and a 6-byte chunk; the intermediate attempt yields nothing and the
final attempt yields the message. -/
theorem claim_C3_witness :
    (∀ k, k < ([[67, 111, 110, 116, 101, 110, 116, 45, 76, 101, 110, 103, 116, 104, 58, 32, 50],
        [13, 10, 13, 10, 123, 125]] : List (List Nat)).length →
      try_parse_one (fun b : List Nat => some b)
        ((([[67, 111, 110, 116, 101, 110, 116, 45, 76, 101, 110, 103, 116, 104, 58, 32, 50],
        [13, 10, 13, 10, 123, 125]] : List (List Nat)).take k).flatten)
        = (.needMore, (([[67, 111, 110, 116, 101, 110, 116, 45, 76, 101, 110, 103, 116, 104, 58, 32, 50],
        [13, 10, 13, 10, 123, 125]] : List (List Nat)).take k).flatten)) ∧
    try_parse_one (fun b : List Nat => some b)
      (([[67, 111, 110, 116, 101, 110, 116, 45, 76, 101, 110, 103, 116, 104, 58, 32, 50],
        [13, 10, 13, 10, 123, 125]] : List (List Nat)).flatten)
      = (.ok [123, 125] (encode (fun x : List Nat => x) [123, 125]).length, []) :=
  claim_C3 (fun x : List Nat => x) (fun b : List Nat => some b) [123, 125] rfl
    [[67, 111, 110, 116, 101, 110, 116, 45, 76, 101, 110, 103, 116, 104, 58, 32, 50],
     [13, 10, 13, 10, 123, 125]] (by decide) (by decide)

theorem tpo_ok_inv {J : Type} (loads : List Nat → Option J) (buf : List Nat)
    (m : J) (k : Nat) (buf2 : List Nat)
    (hsucc : try_parse_one loads buf = (.ok m k, buf2)) :
    ∃ hh n, find_header_end buf = some hh ∧
      parse_content_length (buf.take hh) = .ok (some n) ∧
      k = hh + (if (buf.drop hh).take 4 = crlfcrlf then 4 else 2) + n ∧
      k ≤ buf.length ∧ buf2 = buf.drop k := by
  unfold try_parse_one at hsucc
  by_cases hbe : buf = []
  · rw [if_pos hbe] at hsucc
    simp at hsucc
  · rw [if_neg hbe] at hsucc
    split at hsucc
    · simp at hsucc
    · next hh heq =>
      split at hsucc
      · next hterm4 =>
        simp only [] at hsucc
        split at hsucc
        · simp at hsucc
        · simp at hsucc
        · next n hparse =>
          split at hsucc
          · simp at hsucc
          · next hlen =>
            split at hsucc
            · simp at hsucc
            · next m2 hload =>
              injection hsucc with h1 h2
              injection h1 with h3 h4
              refine ⟨hh, n, heq, hparse, ?_, ?_, ?_⟩
              · rw [if_pos hterm4]; omega
              · omega
              · rw [← h2, ← h4]
      · next hterm2 =>
        simp only [] at hsucc
        split at hsucc
        · simp at hsucc
        · simp at hsucc
        · next n hparse =>
          split at hsucc
          · simp at hsucc
          · next hlen =>
            split at hsucc
            · simp at hsucc
            · next m2 hload =>
              injection hsucc with h1 h2
              injection h1 with h3 h4
              refine ⟨hh, n, heq, hparse, ?_, ?_, ?_⟩
              · rw [if_neg hterm2]; omega
              · omega
              · rw [← h2, ← h4]

/-- Claim C4: whenever a decode attempt returns a message with k bytes
consumed, k is exactly the header length (terminator included) plus the
declared body length, the consumed bytes are removed from the front only,
and the remaining suffix is preserved unchanged — recombining the removed
front with the new buffer restores the original buffer, so no bytes are lost
or duplicated; and a decode attempt on a buffer holding only a proper prefix
of a frame removes nothing. -/
theorem claim_C4 :
    (∀ (J : Type) (loads : List Nat → Option J) (buf : List Nat) (m : J) (k : Nat)
        (buf2 : List Nat), try_parse_one loads buf = (.ok m k, buf2) →
      buf2 = buf.drop k ∧ buf.take k ++ buf2 = buf ∧ k ≤ buf.length ∧
      ∃ hh n, find_header_end buf = some hh ∧
        parse_content_length (buf.take hh) = .ok (some n) ∧
        k = (hh + (if (buf.drop hh).take 4 = crlfcrlf then 4 else 2)) + n) ∧
    (∀ (J : Type) (dumps : J → List Nat) (loads : List Nat → Option J) (m : J)
        (p t : List Nat), t ≠ [] → p ++ t = encode dumps m →
      try_parse_one loads p = (.needMore, p)) := by
  constructor
  · intro J loads buf m k buf2 hsucc
    obtain ⟨hh, n, heq, hparse, hk, hkle, hbuf2⟩ := tpo_ok_inv loads buf m k buf2 hsucc
    refine ⟨hbuf2, ?_, hkle, hh, n, heq, hparse, hk⟩
    rw [hbuf2]
    exact List.take_append_drop k buf
  · intro J dumps loads m p t ht heq
    exact tpo_proper_lead dumps loads m p t ht heq

/-- Witness for C4 at the 23-byte empty-object frame followed by one stray
byte (the success part), and at the first 10 bytes of that frame (the
proper-prefix part). -/
theorem claim_C4_witness :
    ((encode (fun x : List Nat => x) [123, 125] ++ [99]).drop 23 = [99] ∧
      (encode (fun x : List Nat => x) [123, 125] ++ [99]).take 23 ++ [99]
        = encode (fun x : List Nat => x) [123, 125] ++ [99] ∧
      23 ≤ (encode (fun x : List Nat => x) [123, 125] ++ [99]).length ∧
      ∃ hh n, find_header_end (encode (fun x : List Nat => x) [123, 125] ++ [99]) = some hh ∧
        parse_content_length ((encode (fun x : List Nat => x) [123, 125] ++ [99]).take hh)
          = .ok (some n) ∧
        (23 : Nat) = (hh + (if ((encode (fun x : List Nat => x) [123, 125] ++ [99]).drop hh).take 4
            = crlfcrlf then 4 else 2)) + n) ∧
    try_parse_one (fun b : List Nat => some b)
        ((encode (fun x : List Nat => x) [123, 125]).take 10)
      = (.needMore, (encode (fun x : List Nat => x) [123, 125]).take 10) := by
  constructor
  · exact claim_C4.1 (List Nat) (fun b => some b)
      (encode (fun x : List Nat => x) [123, 125] ++ [99]) [123, 125] 23 [99] (by decide)
  · exact claim_C4.2 (List Nat) (fun x => x) (fun b => some b) [123, 125]
      ((encode (fun x : List Nat => x) [123, 125]).take 10)
      ((encode (fun x : List Nat => x) [123, 125]).drop 10)
      (by decide) (List.take_append_drop 10 (encode (fun x : List Nat => x) [123, 125]))

example : parse_content_length [67, 111, 110, 116, 101, 110, 116, 45, 76, 101, 110, 103,
    116, 104, 58, 32, 217, 165] = .ok (some 5) := rfl

example : try_parse_one (fun b : List Nat => some b)
    [67, 111, 110, 116, 101, 110, 116, 45, 76, 101, 110, 103, 116, 104, 58, 32,
     217, 165, 13, 10, 13, 10]
  = (.needMore,
     [67, 111, 110, 116, 101, 110, 116, 45, 76, 101, 110, 103, 116, 104, 58, 32,
      217, 165, 13, 10, 13, 10]) := by decide

/-- Claim C7: recv_response_for_id silently discards every incoming message
whose id field is absent or differs from the awaited id and keeps waiting;
the wait ends only when the first matching message arrives (returned) or the
message stream is exhausted by the deadline (error). -/
theorem claim_C7 {J V : Type} [DecidableEq V] (idOf : J → Option V) (rid : V) :
    (∀ m ms, idOf m ≠ some rid →
      recv_response_for_id idOf rid (m :: ms) = recv_response_for_id idOf rid ms) ∧
    (∀ ms m, recv_response_for_id idOf rid ms = some m →
      idOf m = some rid ∧ ∃ pre suf, ms = pre ++ m :: suf ∧
        ∀ x ∈ pre, idOf x ≠ some rid) ∧
    (∀ ms, recv_response_for_id idOf rid ms = none → ∀ x ∈ ms, idOf x ≠ some rid) := by
  refine ⟨?_, ?_, ?_⟩
  · intro m ms hne
    simp [recv_response_for_id, hne]
  · intro ms
    induction ms with
    | nil =>
      intro m h
      simp [recv_response_for_id] at h
    | cons a ms ih =>
      intro m h
      by_cases ha : idOf a = some rid
      · rw [show recv_response_for_id idOf rid (a :: ms) = some a from by
          simp [recv_response_for_id, ha]] at h
        injection h with h1
        subst h1
        exact ⟨ha, [], ms, rfl, by intro x hx; simp at hx⟩
      · rw [show recv_response_for_id idOf rid (a :: ms)
            = recv_response_for_id idOf rid ms from by
          simp [recv_response_for_id, ha]] at h
        obtain ⟨hid, pre, suf, hms, hpre⟩ := ih m h
        refine ⟨hid, a :: pre, suf, by rw [hms]; rfl, ?_⟩
        intro x hx
        rcases List.mem_cons.mp hx with h1 | h1
        · rw [h1]; exact ha
        · exact hpre x h1
  · intro ms
    induction ms with
    | nil =>
      intro _ x hx
      simp at hx
    | cons a ms ih =>
      intro h x hx
      by_cases ha : idOf a = some rid
      · rw [show recv_response_for_id idOf rid (a :: ms) = some a from by
          simp [recv_response_for_id, ha]] at h
        cases h
      · rw [show recv_response_for_id idOf rid (a :: ms)
            = recv_response_for_id idOf rid ms from by
          simp [recv_response_for_id, ha]] at h
        rcases List.mem_cons.mp hx with h1 | h1
        · rw [h1]; exact ha
        · exact ih h x h1

/-- Witness for C7: awaiting id 1 over the stream [no id, id 2, id 1]; the
first two messages are skipped and the third is returned. -/
theorem claim_C7_witness :
    recv_response_for_id (fun x : Option Nat => x) 1 [none, some 2, some 1]
        = recv_response_for_id (fun x : Option Nat => x) 1 [some 2, some 1] ∧
    recv_response_for_id (fun x : Option Nat => x) 1 [none, some 2, some 1] = some (some 1) ∧
    recv_response_for_id (fun x : Option Nat => x) 1 [none, some 2] = none :=
  ⟨(claim_C7 (fun x : Option Nat => x) 1).1 none [some 2, some 1] (by decide),
   by decide, by decide⟩

/-- Claim C8: whenever the buffer already contains a complete frame,
recv_message returns the decoded message without consuming anything from the
I/O stream — the stream of pending reads comes back untouched, so no
readiness wait or read was performed; in particular, two encoded frames
delivered concatenated in one chunk are returned as two separate messages by
two consecutive calls, the stream untouched both times. -/
theorem claim_C8 {J : Type} (dumps : J → List Nat) (loads : List Nat → Option J) :
    (∀ (stream : List (List Nat)) (buf buf2 : List Nat) (m : J) (k : Nat),
      try_parse_one loads buf = (.ok m k, buf2) →
      recv_message loads stream buf = (.ok m, buf2, stream)) ∧
    (∀ (m1 m2 : J) (stream : List (List Nat)),
      loads (dumps m1) = some m1 → loads (dumps m2) = some m2 →
      recv_message loads stream (encode dumps m1 ++ encode dumps m2)
          = (.ok m1, encode dumps m2, stream) ∧
      recv_message loads stream (encode dumps m2) = (.ok m2, [], stream)) := by
  have hgen : ∀ (stream : List (List Nat)) (buf buf2 : List Nat) (m : J) (k : Nat),
      try_parse_one loads buf = (.ok m k, buf2) →
      recv_message loads stream buf = (.ok m, buf2, stream) := by
    intro stream buf buf2 m k hp
    cases stream with
    | nil =>
      unfold recv_message
      rw [hp]
    | cons c rest =>
      unfold recv_message
      rw [hp]
  refine ⟨hgen, ?_⟩
  intro m1 m2 stream hm1 hm2
  constructor
  · exact hgen stream (encode dumps m1 ++ encode dumps m2) (encode dumps m2) m1
      (encode dumps m1).length (tpo_encode_append dumps loads m1 (encode dumps m2) hm1)
  · refine hgen stream (encode dumps m2) [] m2 (encode dumps m2).length ?_
    have h := tpo_encode_append dumps loads m2 [] hm2
    simpa using h

/-- Witness for C8: the frames of the empty-object and empty-array bodies
concatenated, with one pending unread chunk that stays unread. -/
theorem claim_C8_witness :
    recv_message (fun b : List Nat => some b) [[55]]
        (encode (fun x : List Nat => x) [123, 125] ++ encode (fun x : List Nat => x) [91, 93])
      = (.ok [123, 125], encode (fun x : List Nat => x) [91, 93], [[55]]) ∧
    recv_message (fun b : List Nat => some b) [[55]]
        (encode (fun x : List Nat => x) [91, 93])
      = (.ok [91, 93], [], [[55]]) :=
  (claim_C8 (fun x : List Nat => x) (fun b : List Nat => some b)).2
    [123, 125] [91, 93] [[55]] rfl rfl

theorem graceLoop_no_escalation (c : Child) : ∀ (fuel start : Nat),
    (∃ i, start ≤ i ∧ i < start + fuel ∧ c.polls i = true) →
    PAct.terminateSig ∉ graceLoop c fuel start ∧ PAct.killSig ∉ graceLoop c fuel start := by
  intro fuel
  induction fuel with
  | zero =>
    rintro start ⟨i, h1, h2, _⟩
    omega
  | succ fuel ih =>
    rintro start ⟨i, h1, h2, h3⟩
    by_cases hs : c.polls start = true
    · simp [graceLoop, hs]
    · have hs2 : c.polls start = false := by
        cases hp : c.polls start with
        | false => rfl
        | true => exact absurd hp hs
      have hne : i ≠ start := by
        intro he
        rw [he] at h3
        rw [h3] at hs2
        cases hs2
      have hrec := ih (start + 1) ⟨i, by omega, by omega, h3⟩
      simp [graceLoop, hs2, hrec.1, hrec.2]

theorem graceLoop_all_fail (c : Child) : ∀ (fuel start : Nat),
    (∀ i, start ≤ i → i < start + fuel → c.polls i = false) →
    graceLoop c fuel start =
      List.replicate fuel .graceSleep ++ [.terminateSig, .waitChild]
        ++ (if c.waitOk then [] else [.killSig]) := by
  intro fuel
  induction fuel with
  | zero =>
    intro start _
    simp [graceLoop]
  | succ fuel ih =>
    intro start hall
    have hs : c.polls start = false := hall start (by omega) (by omega)
    have hrec := ih (start + 1) (fun i hi1 hi2 => hall i (by omega) (by omega))
    simp [graceLoop, hs, hrec, List.replicate_succ]

/-- Claim C9: shutdown of the child process.  When the initial poll reports
the child already exited, nothing at all is done.  When the child exits
voluntarily during the grace period (some poll up to the last grace
iteration reports exit), no terminate and no kill signal is ever sent.  When
the child never exits during the grace period, the escalation happens in
order: the grace-period sleeps, then the terminate signal, then the bounded
wait, and the kill signal only if that wait fails. -/
theorem claim_C9 (c : Child) (g : Nat) :
    (c.polls 0 = true → terminate_process c g = []) ∧
    ((∃ i, i ≤ g ∧ c.polls i = true) →
      PAct.terminateSig ∉ terminate_process c g ∧ PAct.killSig ∉ terminate_process c g) ∧
    ((∀ i, i ≤ g → c.polls i = false) →
      terminate_process c g =
        .closeStdin :: (List.replicate g .graceSleep ++ [.terminateSig, .waitChild]
          ++ (if c.waitOk then [] else [.killSig]))) := by
  refine ⟨?_, ?_, ?_⟩
  · intro h0
    simp [terminate_process, h0]
  · rintro ⟨i, hi, hpi⟩
    by_cases h0 : c.polls 0 = true
    · simp [terminate_process, h0]
    · have h0f : c.polls 0 = false := by
        cases hp : c.polls 0 with
        | false => rfl
        | true => exact absurd hp h0
      have hi1 : 1 ≤ i := by
        cases hieq : i with
        | zero =>
          exfalso
          rw [hieq, h0f] at hpi
          cases hpi
        | succ i2 => omega
      have hloop := graceLoop_no_escalation c g 1 ⟨i, by omega, by omega, hpi⟩
      simp [terminate_process, h0f, hloop.1, hloop.2]
  · intro hall
    have h0f : c.polls 0 = false := hall 0 (by omega)
    have hloop := graceLoop_all_fail c g 1 (fun i hi1 hi2 => hall i (by omega))
    simp [terminate_process, h0f, hloop]

/-- Witness for C9 at three concrete children: one already exited, one that
exits at the second grace poll, one that never exits and ignores the
terminate signal. -/
theorem claim_C9_witness :
    terminate_process ⟨fun _ => true, true⟩ 5 = [] ∧
    (PAct.terminateSig ∉ terminate_process ⟨fun i => decide (2 ≤ i), false⟩ 3 ∧
      PAct.killSig ∉ terminate_process ⟨fun i => decide (2 ≤ i), false⟩ 3) ∧
    terminate_process ⟨fun _ => false, false⟩ 2 =
      .closeStdin :: (List.replicate 2 .graceSleep ++ [.terminateSig, .waitChild]
        ++ (if (false : Bool) then [] else [.killSig])) :=
  ⟨(claim_C9 ⟨fun _ => true, true⟩ 5).1 rfl,
   (claim_C9 ⟨fun i => decide (2 ≤ i), false⟩ 3).2.1 ⟨2, by decide, by decide⟩,
   (claim_C9 ⟨fun _ => false, false⟩ 2).2.2 (fun i hi => by interval_cases i <;> decide)⟩

/-- Claim C10: the frame decoders embedded in the smoke-test script and in
the e2e-regression script are extensionally equal: on every buffer the two
_find_header_end, _parse_content_length and _try_parse_one implementations
produce identical outcomes and leave the buffer in the same state. -/
theorem claim_C10 :
    (∀ buf, e2e_find_header_end buf = find_header_end buf) ∧
    (∀ header, e2e_parse_content_length header = parse_content_length header) ∧
    (∀ (J : Type) (loads : List Nat → Option J) (buf : List Nat),
      e2e_try_parse_one loads buf = try_parse_one loads buf) :=
  ⟨fun _ => rfl, fun _ => rfl, fun _ _ _ => rfl⟩
